import Mathlib

/-!
Verification of the reconciliation / tournament-resolution core of an
esports ETL pipeline (scripts/lib/db_utils.py and scripts/lib/api_utils.py).

The Python functions are shallowly embedded as executable Lean functions:
the relational store is a list of rows plus a fresh-id counter, SQL string
comparison is exact equality, dates are integers (day numbers), and the
`re.sub`-based stage stripping of `find_tournament_id_for_match` is embedded
by a scanner with the same leftmost-match-anchored-at-end semantics as the
anchored patterns used in the source.
-/

namespace LP

/-! ## Character and string helpers (Python str.strip, str.replace, re IGNORECASE) -/

/-- Whitespace characters recognised by Python's `str.strip()` / `\s`
(ASCII subset; the names involved in the pipeline are ASCII). -/
def isWs (c : Char) : Bool :=
  c == ' ' || c == '\t' || c == '\n' || c == '\r' || c == '\x0b' || c == '\x0c'

/-- ASCII lower-casing, modelling `re.IGNORECASE` comparison. -/
def lowerChar (c : Char) : Char :=
  if 'A' ≤ c ∧ c ≤ 'Z' then Char.ofNat (c.toNat + 32) else c

/-- Case-insensitive equality of character lists. -/
def lowEq (a b : List Char) : Bool :=
  a.map lowerChar == b.map lowerChar

/-- Drop leading whitespace (`str.lstrip`). -/
def dropWs (l : List Char) : List Char := l.dropWhile isWs

/-- Drop trailing whitespace (`str.rstrip`). -/
def stripEnd (l : List Char) : List Char := (l.reverse.dropWhile isWs).reverse

/-- Python `str.strip()`. -/
def stripBoth (l : List Char) : List Char := stripEnd (dropWs l)

/-- `str.replace('_', ' ')` applied character-wise. -/
def underscoreToSpace (c : Char) : Char := if c == '_' then ' ' else c

/-- The normalisation at the top of `find_tournament_id_for_match`:
`str(raw).replace('_', ' ').strip()`. -/
def cleanName (raw : String) : List Char := stripBoth (raw.data.map underscoreToSpace)

/-! ## The stage-suffix patterns of `find_tournament_id_for_match`

Each Python pattern is anchored at the end of the string (`...\s*$`), so
`re.sub(pattern, "", s)` removes the suffix `s[i:]` for the least `i` at
which the tail of `s` matches, and leaves `s` unchanged when no tail
matches.  `Pat` describes the three shapes of pattern in the source and
`matchTail` decides whether a whole tail belongs to a pattern's language. -/

inductive Pat where
  | sepWords (sep : Char) (ws : List (List Char))
  | wsWord (w : List Char)
  | wsWordNum (w : List Char) (ds : List Char)
deriving DecidableEq

/-- Does the entire character list match the pattern?  `sepWords` is
`\s*SEP\s*(w1|w2|...)\s*$`, `wsWord w` is `\s+w\s*$`, and `wsWordNum w ds`
is `\s+w [d]\s*$` with `d` drawn from `ds`; all case-insensitive. -/
def matchTail : Pat → List Char → Bool
  | .sepWords sep ws, cs =>
    match dropWs cs with
    | [] => false
    | c :: rest =>
      c == sep && ws.any (fun w => lowEq (stripEnd (dropWs rest)) w)
  | .wsWord w, cs =>
    match cs with
    | [] => false
    | c :: rest => isWs c && lowEq (stripEnd (dropWs rest)) w
  | .wsWordNum w ds, cs =>
    match cs with
    | [] => false
    | c :: rest =>
      isWs c && ds.any (fun d => lowEq (stripEnd (dropWs rest)) (w ++ [' ', d]))

/-- `re.sub(pattern, "", s)` for an end-anchored pattern: remove the tail
starting at the leftmost position whose tail matches, else leave `s`. -/
def reSubTail (m : List Char → Bool) : List Char → List Char
  | [] => []
  | c :: cs => if m (c :: cs) then [] else c :: reSubTail m cs

/-- The alternation `(Opening Stage|Challengers Stage|Legends Stage|Champions
Stage|Playoffs|Group Stage|Finals|Qualifier|Main Event)` shared by the first
two patterns in the source. -/
def stageWords : List (List Char) :=
  ["Opening Stage".data, "Challengers Stage".data, "Legends Stage".data,
   "Champions Stage".data, "Playoffs".data, "Group Stage".data,
   "Finals".data, "Qualifier".data, "Main Event".data]

/-- The `stage_patterns` list of `find_tournament_id_for_match`, in source
order. -/
def stagePats : List Pat :=
  [.sepWords ':' stageWords,
   .sepWords '-' stageWords,
   .wsWord "Play-In".data,
   .wsWord "Last Chance Qualifier".data,
   .wsWord "LCQ".data,
   .wsWord "Regional Finals".data,
   .wsWordNum "Stage".data ['1', '2', '3'],
   .wsWordNum "Phase".data ['1', '2', '3']]

/-- Append a candidate name if it is not already present
(`if x not in search_names: search_names.append(x)`). -/
def addName (ns : List (List Char)) (n : List Char) : List (List Char) :=
  if n ∈ ns then ns else ns ++ [n]

/-- `base.split(":")[0]`. -/
def splitColon (l : List Char) : List Char := l.takeWhile (fun c => c ≠ ':')

/-- The prefix of `l` before the first occurrence of `" - "`, or `none` when
the separator does not occur (`" - " in base` and `base.split(" - ")[0]`). -/
def dashSplit : List Char → Option (List Char)
  | ' ' :: '-' :: ' ' :: _ => some []
  | c :: cs => (dashSplit cs).map (fun p => c :: p)
  | [] => none

/-- The two split-derived candidates tried after each stripping attempt:
the prefix before a bare `":"` and the prefix before a `" - "` separator
of the current base name. -/
def splitExtras (names : List (List Char)) (base : List Char) : List (List Char) :=
  let names' :=
    if ':' ∈ base then
      let pb := stripBoth (splitColon base)
      if pb ≠ [] then addName names pb else names
    else names
  if (dashSplit base).isSome then
    let pb := stripBoth ((dashSplit base).getD [])
    if pb ≠ [] then addName names' pb else names'
  else names'

/-- One iteration of the candidate-derivation loop of
`find_tournament_id_for_match` (strip one pattern from the current base
name, then try the bare-colon and `" - "` splits of the updated base). -/
def stepPat (st : List (List Char) × List Char) (p : Pat) :
    List (List Char) × List Char :=
  let names := st.1
  let base := st.2
  let stripped := stripBoth (reSubTail (matchTail p) base)
  let names' := if stripped ≠ base ∧ stripped ≠ [] then addName names stripped else names
  let base' := if stripped ≠ base ∧ stripped ≠ [] then stripped else base
  (splitExtras names' base', base')

/-- The full `search_names` list derived from the cleaned raw name. -/
def searchNamesL (cleaned : List Char) : List (List Char) :=
  (stagePats.foldl stepPat ([cleaned], cleaned)).1

/-! ## Relational rows (the columns the core logic touches) -/

/-- A row of the `Tournaments` table.  Dates are integer day numbers;
`end_date` is nullable in the schema (a SQL comparison against NULL is
false, see `dateContains`). -/
structure TournamentRow where
  tournament_id : Nat
  tournament_name : String
  game_id : String
  start_date : Int
  end_date : Option Int
  tier : Option String
  type_val : Option String
  region : Option String
  location : Option String
  prize_pool : Option Int
  tournament_weight : Option Int
deriving DecidableEq

structure TournamentsDb where
  rows : List TournamentRow
  nextId : Nat
deriving DecidableEq

/-- A row of the `Teams` table. -/
structure TeamRow where
  team_id : Nat
  team_name : String
  game_id : String
  region : Option String
  location : Option String
  is_disbanded : Bool
deriving DecidableEq

structure TeamsDb where
  rows : List TeamRow
  nextId : Nat
deriving DecidableEq

/-- A row of the `Players` table. -/
structure PlayerRow where
  player_id : Nat
  player_nickname : String
  game_id : String
  birth_date : Option Int
  nationality : Option String
  status : Option String
  curr_role : Option String
  ptype : Option String
deriving DecidableEq

structure PlayersDb where
  rows : List PlayerRow
  nextId : Nat
deriving DecidableEq

/-! ## get_or_create_team (db_utils.py lines 48-94)

`None` optional arguments become `Option.none`; `api_pagename` is a string
whose emptiness models Python falsiness.  A found row triggers a field-level
`UPDATE` of exactly the supplied optional attributes (an empty update list
executes no statement, which has the same net effect as updating nothing).
`fetchone` on the natural-key lookup is the first matching row in row
order. -/

/-- `if arg is not None: set the (nullable) column to arg` — the field-level
update applied to a nullable column when the optional argument is present. -/
def updOpt {α : Type} (arg cur : Option α) : Option α :=
  match arg with
  | some v => some v
  | none => cur

def teamKey (n g : String) (r : TeamRow) : Bool :=
  r.team_name == n && r.game_id == g

def get_or_create_team (db : TeamsDb) (team_name game_id : String)
    (region location : Option String) (is_disb : Option Bool)
    (api_pagename : String) : Option Nat × TeamsDb :=
  if game_id = "" then (none, db)
  else
    let name := if team_name = "" then api_pagename else team_name
    if name = "" then (none, db)
    else
      match db.rows.find? (teamKey name game_id) with
      | some r =>
        let upd : TeamRow → TeamRow := fun t =>
          if t.team_id == r.team_id then
            { t with
              region := updOpt region t.region
              location := updOpt location t.location
              is_disbanded := is_disb.getD t.is_disbanded }
          else t
        (some r.team_id, { db with rows := db.rows.map upd })
      | none =>
        let newRow : TeamRow :=
          { team_id := db.nextId, team_name := name, game_id := game_id,
            region := region, location := location,
            is_disbanded := is_disb.getD false }
        (some db.nextId, { rows := db.rows ++ [newRow], nextId := db.nextId + 1 })

/-! ## get_or_create_player (db_utils.py lines 119-165) -/

def playerKey (n g : String) (r : PlayerRow) : Bool :=
  r.player_nickname == n && r.game_id == g

def get_or_create_player (db : PlayersDb) (player_nickname game_id : String)
    (birth_date : Option Int) (nationality status current_role ptype : Option String)
    (api_pagename : String) : Option Nat × PlayersDb :=
  if game_id = "" then (none, db)
  else
    let name := if player_nickname = "" then api_pagename else player_nickname
    if name = "" then (none, db)
    else
      match db.rows.find? (playerKey name game_id) with
      | some r =>
        let upd : PlayerRow → PlayerRow := fun t =>
          if t.player_id == r.player_id then
            { t with
              birth_date := updOpt birth_date t.birth_date
              nationality := updOpt nationality t.nationality
              status := updOpt status t.status
              curr_role := updOpt current_role t.curr_role
              ptype := updOpt ptype t.ptype }
          else t
        (some r.player_id, { db with rows := db.rows.map upd })
      | none =>
        let newRow : PlayerRow :=
          { player_id := db.nextId, player_nickname := name, game_id := game_id,
            birth_date := birth_date, nationality := nationality, status := status,
            curr_role := current_role, ptype := ptype }
        (some db.nextId, { rows := db.rows ++ [newRow], nextId := db.nextId + 1 })

/-! ## get_or_create_tournament (db_utils.py lines 167-216) -/

def tournamentKey (n g : String) (s : Int) (r : TournamentRow) : Bool :=
  r.tournament_name == n && r.game_id == g && r.start_date == s

def get_or_create_tournament (db : TournamentsDb) (tournament_name game_id : String)
    (start_date : Option Int) (tier : Option String) (end_date : Option Int)
    (type_val region location : Option String) (prize_pool tournament_weight : Option Int)
    (api_pagename : String) : Option Nat × TournamentsDb :=
  if game_id = "" ∨ start_date = none then (none, db)
  else
    match start_date with
    | none => (none, db)
    | some s =>
      let name := if tournament_name = "" then api_pagename else tournament_name
      if name = "" then (none, db)
      else
        match db.rows.find? (tournamentKey name game_id s) with
        | some r =>
          let upd : TournamentRow → TournamentRow := fun t =>
            if t.tournament_id == r.tournament_id then
              { t with
                tier := updOpt tier t.tier
                end_date := updOpt end_date t.end_date
                type_val := updOpt type_val t.type_val
                region := updOpt region t.region
                location := updOpt location t.location
                prize_pool := updOpt prize_pool t.prize_pool
                tournament_weight := updOpt tournament_weight t.tournament_weight }
            else t
          (some r.tournament_id, { db with rows := db.rows.map upd })
        | none =>
          let newRow : TournamentRow :=
            { tournament_id := db.nextId, tournament_name := name, game_id := game_id,
              start_date := s, end_date := end_date, tier := tier, type_val := type_val,
              region := region, location := location, prize_pool := prize_pool,
              tournament_weight := tournament_weight }
          (some db.nextId, { rows := db.rows ++ [newRow], nextId := db.nextId + 1 })

/-! ## find_tournament_id_for_match (db_utils.py lines 219-317) -/

/-- `start_date <= %s AND end_date >= %s` (a NULL `end_date` never
satisfies the SQL comparison). -/
def dateContains (r : TournamentRow) (d : Int) : Bool :=
  decide (r.start_date ≤ d) &&
    (match r.end_date with | some e => decide (d ≤ e) | none => false)

/-- The rows returned by the per-candidate containment query. -/
def containmentMatches (db : List TournamentRow) (name : List Char) (g : String)
    (d : Int) : List TournamentRow :=
  db.filter (fun r => r.tournament_name == String.mk name && r.game_id == g &&
    dateContains r d)

/-- One step of the multiple-match tie-break scan: keep the row with the
strictly larger start date (the source's
`if latest_start_date_found is None or res_start > latest_start_date_found`). -/
def pickStep (acc : Option (Nat × Int)) (r : TournamentRow) : Option (Nat × Int) :=
  match acc with
  | none => some (r.tournament_id, r.start_date)
  | some (i, s) =>
    if s < r.start_date then some (r.tournament_id, r.start_date) else some (i, s)

/-- The multiple-match tie-break: scan the result rows keeping the first row
whose start date strictly exceeds the best seen so far. -/
def pickLatest (rs : List TournamentRow) : Option Nat :=
  (rs.foldl pickStep none).map Prod.fst

/-- The candidate loop: one containment query per candidate name; a unique
match returns immediately, several matches go to the tie-break, zero
matches move on to the next candidate. -/
def tryNames (db : List TournamentRow) (g : String) (d : Int) :
    List (List Char) → Option Nat
  | [] => none
  | n :: rest =>
    if n = [] then tryNames db g d rest
    else
      let results := containmentMatches db n g d
      if results.length = 1 then results.head?.map TournamentRow.tournament_id
      else if 1 < results.length then pickLatest results
      else tryNames db g d rest

/-- The fallback `ORDER BY ABS(start_date - %s::date) LIMIT 1`: the first
row in row order attaining the minimal absolute distance (the SQL sort
order among ties is unspecified). -/
def closestByStart (d : Int) (rs : List TournamentRow) : Option Nat :=
  (rs.foldl (fun acc r =>
      match acc with
      | none => some (r.tournament_id, (r.start_date - d).natAbs)
      | some (i, k) =>
        if (r.start_date - d).natAbs < k then some (r.tournament_id, (r.start_date - d).natAbs)
        else some (i, k))
    none).map Prod.fst

/-- `find_tournament_id_for_match`: validate inputs, normalise the raw
name, derive candidate names, try each with date containment, then the
name-only fallback on the first candidate. -/
def find_tournament_id_for_match (db : List TournamentRow) (raw g : String)
    (dOpt : Option Int) : Option Nat :=
  match dOpt with
  | none => none
  | some d =>
    if raw = "" ∨ g = "" then none
    else
      let cleaned := cleanName raw
      if cleaned = [] then none
      else
        let names := searchNamesL cleaned
        match tryNames db g d names with
        | some i => some i
        | none =>
          closestByStart d
            (db.filter (fun r =>
              r.tournament_name == String.mk (names.headD []) && r.game_id == g))

/-! ## make_api_v3_request (api_utils.py lines 16-98)

The single-request function is embedded as a trace semantics: the
environment's behaviour for the one `requests.get` call is an explicit
`GetResult`, and the function returns the Python return value together
with the list of externally visible actions it performed (the outbound
send and the `time.sleep(API_REQUEST_DELAY)`).  An exception raised by
`requests.get` itself jumps to the `except` handlers, which return `None`
— control never reaches the `time.sleep` on that path. -/

inductive NetAction where
  | sent
  | slept (d : Nat)
deriving DecidableEq

/-- Behaviour of the one `requests.get` call.  `raisedBeforeSend` is a
transport exception before any request went out (e.g. DNS failure),
`raisedAfterSend` one after the request was issued (e.g. read timeout).
`response` carries whether the status was 2xx, whether the body parsed
as JSON with a well-formed `result` list, and the records. -/
inductive GetResult (α : Type) where
  | raisedBeforeSend
  | raisedAfterSend
  | response (status2xx : Bool) (resultOk : Bool) (records : List α)
deriving DecidableEq

def make_api_v3_request {α : Type} (apiKeySet wikiOk : Bool) (delay : Nat)
    (g : GetResult α) : Option (List α) × List NetAction :=
  if !apiKeySet then (none, [])
  else if !wikiOk then (none, [])
  else
    match g with
    | .raisedBeforeSend => (none, [])
    | .raisedAfterSend => (none, [.sent])
    | .response status2xx resultOk records =>
      if !status2xx then (none, [.sent, .slept delay])
      else if !resultOk then (none, [.sent, .slept delay])
      else (some records, [.sent, .slept delay])

/-! ## fetch_all_api_v3_data (api_utils.py lines 100-150)

The per-offset outcome of `make_api_v3_request` is an oracle
`pages : Nat → Option (List α)` (`none` = the request failed).  The loop
is given fuel for termination; every theorem below supplies enough fuel
that the fuel-exhaustion branch is never taken.  Alongside the Python
return value the embedding records the list of offsets actually
requested. -/

def fetchLoop {α : Type} (pages : Nat → Option (List α)) (limit : Nat) :
    Nat → Nat → List α → List Nat → List α × List Nat
  | 0, _, acc, reqs => (acc, reqs)
  | fuel + 1, offset, acc, reqs =>
    match pages offset with
    | none => (acc, reqs ++ [offset])
    | some batch =>
      if batch.isEmpty then (acc, reqs ++ [offset])
      else if batch.length < limit then (acc ++ batch, reqs ++ [offset])
      else fetchLoop pages limit fuel (offset + batch.length) (acc ++ batch) (reqs ++ [offset])

def fetch_all_api_v3_data {α : Type} (pages : Nat → Option (List α))
    (wiki : String) (baseLimit : Option Nat) (apiLimit : Nat) (fuel : Nat) :
    List α × List Nat :=
  let lp0 := baseLimit.getD apiLimit
  let lp := if apiLimit < lp0 then apiLimit else lp0
  if wiki = "" then ([], [])
  else fetchLoop pages lp fuel 0 [] []

/-! ## bulk_insert_data (db_utils.py lines 380-442)

A record is an association list of column name to string value;
`record_dict.get(col)` is `lookupCol`, yielding NULL (`none`) for a
missing key.  The store effect is recorded as the list of executed
multi-row INSERT statements (empty input executes none and touches no
cursor). -/

structure BulkStmt where
  table : String
  cols : List String
  rows : List (List (Option String))
  conflict : Option String
deriving DecidableEq

def lookupCol (rec : List (String × String)) (c : String) : Option String :=
  (rec.find? (fun p => p.1 == c)).map Prod.snd

def bulk_insert_data (table : String) (data_list : List (List (String × String)))
    (column_names : List String) (conflict : Option String) : Nat × List BulkStmt :=
  if data_list.isEmpty then (0, [])
  else
    let rows_to_insert := data_list.map (fun rec => column_names.map (lookupCol rec))
    if rows_to_insert.isEmpty then (0, [])
    else
      (rows_to_insert.length,
       [{ table := table, cols := column_names, rows := rows_to_insert,
          conflict := conflict }])

/-- A name in "good shape": nonempty, no surrounding whitespace, no
underscore.  Display names of stored tournaments have this shape. -/
def goodBase (l : List Char) : Bool :=
  !l.isEmpty && !isWs (l.headD '!') && !isWs (l.getLastD '!') && !decide ('_' ∈ l)

/-- `start_date <= end_date` whenever both dates are present
(the tournament date-range invariant of the spec, as a checkable
predicate on a stored row). -/
def rowDatesOkB (r : TournamentRow) : Bool :=
  match r.end_date with
  | some e => decide (r.start_date <= e)
  | none => true

/-- The single-row update applied by `get_or_create_team` when the key was
found on row-id `rid`. -/
def teamUpd (reg loc : Option String) (dis : Option Bool) (rid : Nat)
    (t : TeamRow) : TeamRow :=
  if t.team_id == rid then
    { t with region := updOpt reg t.region, location := updOpt loc t.location,
             is_disbanded := dis.getD t.is_disbanded }
  else t

/-- The single-row update applied by `get_or_create_player` when the key
was found on row-id `rid`. -/
def playerUpd (bd : Option Int) (nat st cr ty : Option String) (rid : Nat)
    (t : PlayerRow) : PlayerRow :=
  if t.player_id == rid then
    { t with birth_date := updOpt bd t.birth_date, nationality := updOpt nat t.nationality,
             status := updOpt st t.status, curr_role := updOpt cr t.curr_role,
             ptype := updOpt ty t.ptype }
  else t

/-- The single-row update applied by `get_or_create_tournament` when the
key was found on row-id `rid`. -/
def tournamentUpd (tier : Option String) (e : Option Int) (tv rg lc : Option String)
    (pp tw : Option Int) (rid : Nat) (t : TournamentRow) : TournamentRow :=
  if t.tournament_id == rid then
    { t with tier := updOpt tier t.tier, end_date := updOpt e t.end_date,
             type_val := updOpt tv t.type_val, region := updOpt rg t.region,
             location := updOpt lc t.location, prize_pool := updOpt pp t.prize_pool,
             tournament_weight := updOpt tw t.tournament_weight }
  else t

/-! # Theorems -/

/-! ## Bulk loader: the empty-input edge case -/

/-- C10: `bulk_insert_data` with an empty row list returns a count of 0 and
executes no insert statement, leaving the store untouched. -/
theorem bulk_insert_empty_noop (table : String) (column_names : List String)
    (conflict : Option String) :
    bulk_insert_data table [] column_names conflict = (0, []) := rfl

/-! ## Rate limiting of the single-request client -/

/-- C7 counterexample: when `requests.get` raises after the request was
issued (e.g. a read timeout), control jumps to the `except` handlers and
the `time.sleep` on line 62 of api_utils.py is never reached: the trace
contains the outbound send but no sleep, so the inter-request delay is not
observed on this execution although a request was issued. -/
theorem request_exception_skips_delay_cex :
    (@make_api_v3_request Nat true true 30 GetResult.raisedAfterSend).2
        = [NetAction.sent] ∧
    NetAction.slept 30 ∉ (@make_api_v3_request Nat true true 30 GetResult.raisedAfterSend).2 := by
  constructor
  · rfl
  · decide

/-- C7 (amended): whenever the transport call returns a response — whatever
its status and body — exactly one sleep of the fixed delay is performed,
after the send and before the function returns; when the transport call
raises, the function returns without sleeping (so the N x delay lower bound
is only guaranteed for requests that received responses). -/
theorem request_with_response_sleeps {α : Type} (delay : Nat)
    (status2xx resultOk : Bool) (records : List α) :
    (make_api_v3_request true true delay (GetResult.response status2xx resultOk records)).2
        = [NetAction.sent, NetAction.slept delay] ∧
    (@make_api_v3_request α true true delay GetResult.raisedAfterSend).2 = [NetAction.sent] := by
  refine ⟨?_, rfl⟩
  cases status2xx <;> cases resultOk <;> rfl

/-! ## Pagination -/

/-- Running the fetch loop across `k` consecutive full pages: each page is
appended in order and the offset advances by the page length. -/
theorem fetchLoop_full_steps {α : Type} (pages : Nat → Option (List α)) (L : Nat)
    (hL : 0 < L) :
    ∀ (k : Nat) (Pk : Nat → List α) (fuel off : Nat) (acc : List α) (reqs : List Nat),
      k ≤ fuel →
      (∀ i, i < k → pages (off + i * L) = some (Pk i) ∧ (Pk i).length = L) →
      fetchLoop pages L fuel off acc reqs =
        fetchLoop pages L (fuel - k) (off + k * L)
          (acc ++ ((List.range k).map Pk).flatten)
          (reqs ++ (List.range k).map (fun i => off + i * L)) := by
  intro k
  induction k with
  | zero =>
    intro Pk fuel off acc reqs _ _
    simp
  | succ k ih =>
    intro Pk fuel off acc reqs hfuel hfull
    cases fuel with
    | zero => omega
    | succ f =>
      have h0 := hfull 0 (Nat.succ_pos k)
      have hoff0 : off + 0 * L = off := by omega
      rw [hoff0] at h0
      have hne : (Pk 0).isEmpty = false := by
        rcases h0 with ⟨-, hlen⟩
        cases hP0 : Pk 0 with
        | nil => rw [hP0] at hlen; simp at hlen; omega
        | cons a l => simp [hP0]
      have hstep : fetchLoop pages L (f + 1) off acc reqs =
          fetchLoop pages L f (off + L) (acc ++ Pk 0) (reqs ++ [off]) := by
        rw [show fetchLoop pages L (f + 1) off acc reqs =
            (match pages off with
             | none => (acc, reqs ++ [off])
             | some batch =>
               if batch.isEmpty then (acc, reqs ++ [off])
               else if batch.length < L then (acc ++ batch, reqs ++ [off])
               else fetchLoop pages L f (off + batch.length) (acc ++ batch) (reqs ++ [off]))
          from rfl]
        rw [h0.1]
        simp [hne, h0.2, lt_self_iff_false]
      rw [hstep]
      have ihh := ih (fun i => Pk (i + 1)) f (off + L) (acc ++ Pk 0) (reqs ++ [off])
        (by omega) ?_
      · rw [ihh]
        have e1 : f - k = f + 1 - (k + 1) := by omega
        have e2 : off + L + k * L = off + (k + 1) * L := by ring
        have e3 : (acc ++ Pk 0) ++ ((List.range k).map fun i => Pk (i + 1)).flatten
            = acc ++ ((List.range (k + 1)).map Pk).flatten := by
          rw [List.range_succ_eq_map, List.map_cons, List.map_map, List.flatten_cons,
            List.append_assoc]
          rfl
        have e4 : (reqs ++ [off]) ++ (List.range k).map (fun i => off + L + i * L)
            = reqs ++ (List.range (k + 1)).map (fun i => off + i * L) := by
          rw [List.range_succ_eq_map, List.map_cons, List.map_map, List.append_assoc]
          have he : ((fun i => off + i * L) ∘ Nat.succ) = fun i => off + L + i * L := by
            funext i
            show off + (i + 1) * L = off + L + i * L
            ring
          rw [he]
          simp
        rw [e1, e2, e3, e4]
      · intro i hi
        have hthis := hfull (i + 1) (by omega)
        have e : off + (i + 1) * L = off + L + i * L := by ring
        rw [e] at hthis
        exact hthis

/-- C5: when the first `k` pages are full (exactly the page limit) and page
`k` is shorter than the limit, `fetch_all_api_v3_data` requests exactly the
offsets `0, L, ..., k*L` — nothing beyond the short page — and returns the
concatenation of all fetched pages in fetch order (a zero-record final page
is the special case `Q = []`). -/
theorem pagination_stops_after_short_page {α : Type} (pages : Nat → Option (List α))
    (wiki : String) (L apiL k fuel : Nat) (P : Nat → List α) (Q : List α)
    (hw : ¬ wiki = "") (hL : 0 < L) (hcap : L ≤ apiL)
    (hfull : ∀ i, i < k → pages (i * L) = some (P i) ∧ (P i).length = L)
    (hlastpage : pages (k * L) = some Q) (hshort : Q.length < L)
    (hfuel : k < fuel) :
    fetch_all_api_v3_data pages wiki (some L) apiL fuel =
      (((List.range k).map P).flatten ++ Q,
       (List.range (k + 1)).map (fun i => i * L)) := by
  unfold fetch_all_api_v3_data
  rw [if_neg hw]
  simp only [Option.getD_some]
  rw [if_neg (by omega : ¬ apiL < L)]
  have hsteps := fetchLoop_full_steps pages L hL k P fuel 0 [] [] (by omega)
    (by intro i hi; simpa using hfull i hi)
  simp only [Nat.zero_add] at hsteps
  rw [hsteps]
  obtain ⟨m, hm⟩ : ∃ m, fuel - k = m + 1 := ⟨fuel - k - 1, by omega⟩
  rw [hm]
  rw [show fetchLoop pages L (m + 1) (k * L) (([] : List α) ++ ((List.range k).map P).flatten)
        (([] : List Nat) ++ (List.range k).map (fun i => i * L)) =
      (match pages (k * L) with
       | none => (([] : List α) ++ ((List.range k).map P).flatten,
            (([] : List Nat) ++ (List.range k).map (fun i => i * L)) ++ [k * L])
       | some batch =>
         if batch.isEmpty then (([] : List α) ++ ((List.range k).map P).flatten,
            (([] : List Nat) ++ (List.range k).map (fun i => i * L)) ++ [k * L])
         else if batch.length < L then
            ((([] : List α) ++ ((List.range k).map P).flatten) ++ batch,
             (([] : List Nat) ++ (List.range k).map (fun i => i * L)) ++ [k * L])
         else fetchLoop pages L m (k * L + batch.length)
            ((([] : List α) ++ ((List.range k).map P).flatten) ++ batch)
            ((([] : List Nat) ++ (List.range k).map (fun i => i * L)) ++ [k * L]))
    from rfl]
  rw [hlastpage]
  cases hQ : Q with
  | nil =>
    simp [List.range_succ]
  | cons a q =>
    rw [hQ] at hshort
    simp only [List.isEmpty_cons, if_false, hshort, if_true, Bool.false_eq_true]
    simp [List.range_succ]

/-- C5 witness: three pages of sizes [2, 2, 1] with limit 2 — the loop
requests offsets 0, 2, 4 only and returns the pages concatenated. -/
theorem pagination_stops_after_short_page_witness :
    fetch_all_api_v3_data
      (fun off => if off = 0 then some [1, 2] else if off = 2 then some [3, 4]
        else if off = 4 then some [5] else none)
      "w" (some 2) 500 10 = ([1, 2, 3, 4, 5], [0, 2, 4]) := by
  have h := pagination_stops_after_short_page
    (fun off => if off = 0 then some [1, 2] else if off = 2 then some [3, 4]
      else if off = 4 then some [5] else none)
    "w" 2 500 2 10 (fun i => if i = 0 then [1, 2] else [3, 4]) [5]
    (by decide) (by decide) (by decide) (by decide) (by decide) (by decide) (by decide)
  exact h.trans (by decide)

/-- C6 counterexample: a failed first request makes `fetch_all_api_v3_data`
return the accumulated records — the empty list — exactly what a
legitimately empty result returns, so the failure value is not a sentinel
distinct from an empty record sequence. -/
theorem fetch_failure_not_distinguished_cex :
    (@fetch_all_api_v3_data Nat (fun _ => none) "w" (some 5) 500 3).1 = [] ∧
    (@fetch_all_api_v3_data Nat (fun _ => some []) "w" (some 5) 500 3).1 = [] := by
  constructor <;> rfl

/-- C6 (amended): a failed page request aborts pagination — no offset
beyond the failing one is requested — and the function returns the records
accumulated so far as a plain list (its own docstring: "or an empty list if
an error occurs"); a failure on the first page is therefore
indistinguishable from an empty result. -/
theorem fetch_failure_returns_accumulated {α : Type} (pages : Nat → Option (List α))
    (wiki : String) (L apiL k fuel : Nat) (P : Nat → List α)
    (hw : ¬ wiki = "") (hL : 0 < L) (hcap : L ≤ apiL)
    (hfull : ∀ i, i < k → pages (i * L) = some (P i) ∧ (P i).length = L)
    (hfail : pages (k * L) = none) (hfuel : k < fuel) :
    fetch_all_api_v3_data pages wiki (some L) apiL fuel =
      (((List.range k).map P).flatten,
       (List.range (k + 1)).map (fun i => i * L)) := by
  unfold fetch_all_api_v3_data
  rw [if_neg hw]
  simp only [Option.getD_some]
  rw [if_neg (by omega : ¬ apiL < L)]
  have hsteps := fetchLoop_full_steps pages L hL k P fuel 0 [] [] (by omega)
    (by intro i hi; simpa using hfull i hi)
  simp only [Nat.zero_add] at hsteps
  rw [hsteps]
  obtain ⟨m, hm⟩ : ∃ m, fuel - k = m + 1 := ⟨fuel - k - 1, by omega⟩
  rw [hm]
  rw [show fetchLoop pages L (m + 1) (k * L) (([] : List α) ++ ((List.range k).map P).flatten)
        (([] : List Nat) ++ (List.range k).map (fun i => i * L)) =
      (match pages (k * L) with
       | none => (([] : List α) ++ ((List.range k).map P).flatten,
            (([] : List Nat) ++ (List.range k).map (fun i => i * L)) ++ [k * L])
       | some batch =>
         if batch.isEmpty then (([] : List α) ++ ((List.range k).map P).flatten,
            (([] : List Nat) ++ (List.range k).map (fun i => i * L)) ++ [k * L])
         else if batch.length < L then
            ((([] : List α) ++ ((List.range k).map P).flatten) ++ batch,
             (([] : List Nat) ++ (List.range k).map (fun i => i * L)) ++ [k * L])
         else fetchLoop pages L m (k * L + batch.length)
            ((([] : List α) ++ ((List.range k).map P).flatten) ++ batch)
            ((([] : List Nat) ++ (List.range k).map (fun i => i * L)) ++ [k * L]))
    from rfl]
  rw [hfail]
  simp [List.range_succ]

/-- C6 amended-claim witness: one full page then a failed request — the
loop stops at offset 2 and returns just the first page. -/
theorem fetch_failure_returns_accumulated_witness :
    fetch_all_api_v3_data
      (fun off => if off = 0 then some [1, 2] else none)
      "w" (some 2) 500 10 = ([1, 2], [0, 2]) := by
  have h := fetch_failure_returns_accumulated
    (fun off => if off = 0 then some [1, 2] else none)
    "w" 2 500 1 10 (fun _ => [1, 2])
    (by decide) (by decide) (by decide) (by decide) (by decide) (by decide)
  exact h.trans (by decide)

/-! ## Generic list facts used by the reconciler proofs -/

theorem find?_map_invariant {α : Type} (p : α → Bool) (f : α → α)
    (hf : ∀ x, p (f x) = p x) (l : List α) :
    (l.map f).find? p = (l.find? p).map f := by
  rw [List.find?_map]
  have he : p ∘ f = p := funext hf
  rw [he]

theorem length_filter_map_invariant {α : Type} (p : α → Bool) (f : α → α)
    (hf : ∀ x, p (f x) = p x) (l : List α) :
    ((l.map f).filter p).length = (l.filter p).length := by
  rw [List.filter_map]
  have he : p ∘ f = p := funext hf
  rw [he, List.length_map]

theorem filter_nil_of_find?_none {α : Type} {p : α → Bool} {l : List α}
    (h : l.find? p = none) : l.filter p = [] := by
  rw [List.filter_eq_nil_iff]
  exact List.find?_eq_none.mp h

theorem one_le_length_filter {α : Type} {p : α → Bool} {l : List α} {a : α}
    (h : l.find? p = some a) : 1 ≤ (l.filter p).length := by
  have hmem : a ∈ l.filter p :=
    List.mem_filter.mpr ⟨List.mem_of_find?_eq_some h, List.find?_some h⟩
  have := List.ne_nil_of_mem hmem
  cases hl : l.filter p with
  | nil => exact absurd hl this
  | cons b m => simp

/-! ## Behaviour of the reconcilers on found / not-found natural keys -/

theorem teamKey_teamUpd (n g : String) (reg loc : Option String) (dis : Option Bool)
    (rid : Nat) (t : TeamRow) :
    teamKey n g (teamUpd reg loc dis rid t) = teamKey n g t := by
  unfold teamUpd
  by_cases h : t.team_id == rid <;> simp [h, teamKey]

theorem team_found (db : TeamsDb) (n g : String) (reg loc : Option String)
    (dis : Option Bool) (pg : String) (r : TeamRow)
    (hn : ¬ n = "") (hg : ¬ g = "")
    (hf : db.rows.find? (teamKey n g) = some r) :
    get_or_create_team db n g reg loc dis pg =
      (some r.team_id, ⟨db.rows.map (teamUpd reg loc dis r.team_id), db.nextId⟩) := by
  unfold get_or_create_team teamUpd
  rw [if_neg hg]
  simp only [if_neg hn, hf]

theorem team_notfound (db : TeamsDb) (n g : String) (reg loc : Option String)
    (dis : Option Bool) (pg : String)
    (hn : ¬ n = "") (hg : ¬ g = "")
    (hf : db.rows.find? (teamKey n g) = none) :
    get_or_create_team db n g reg loc dis pg =
      (some db.nextId,
       ⟨db.rows ++ [({ team_id := db.nextId, team_name := n, game_id := g,
                       region := reg, location := loc,
                       is_disbanded := dis.getD false } : TeamRow)],
        db.nextId + 1⟩) := by
  unfold get_or_create_team
  rw [if_neg hg]
  simp only [if_neg hn, hf]

theorem playerKey_playerUpd (n g : String) (bd : Option Int)
    (nat st cr ty : Option String) (rid : Nat) (t : PlayerRow) :
    playerKey n g (playerUpd bd nat st cr ty rid t) = playerKey n g t := by
  unfold playerUpd
  by_cases h : t.player_id == rid <;> simp [h, playerKey]

theorem player_found (db : PlayersDb) (n g : String) (bd : Option Int)
    (nat st cr ty : Option String) (pg : String) (r : PlayerRow)
    (hn : ¬ n = "") (hg : ¬ g = "")
    (hf : db.rows.find? (playerKey n g) = some r) :
    get_or_create_player db n g bd nat st cr ty pg =
      (some r.player_id, ⟨db.rows.map (playerUpd bd nat st cr ty r.player_id), db.nextId⟩) := by
  unfold get_or_create_player playerUpd
  rw [if_neg hg]
  simp only [if_neg hn, hf]

theorem player_notfound (db : PlayersDb) (n g : String) (bd : Option Int)
    (nat st cr ty : Option String) (pg : String)
    (hn : ¬ n = "") (hg : ¬ g = "")
    (hf : db.rows.find? (playerKey n g) = none) :
    get_or_create_player db n g bd nat st cr ty pg =
      (some db.nextId,
       ⟨db.rows ++ [({ player_id := db.nextId, player_nickname := n, game_id := g,
                       birth_date := bd, nationality := nat, status := st,
                       curr_role := cr, ptype := ty } : PlayerRow)],
        db.nextId + 1⟩) := by
  unfold get_or_create_player
  rw [if_neg hg]
  simp only [if_neg hn, hf]

theorem tournamentKey_tournamentUpd (n g : String) (s : Int) (tier : Option String)
    (e : Option Int) (tv rg lc : Option String) (pp tw : Option Int) (rid : Nat)
    (t : TournamentRow) :
    tournamentKey n g s (tournamentUpd tier e tv rg lc pp tw rid t) = tournamentKey n g s t := by
  unfold tournamentUpd
  by_cases h : t.tournament_id == rid <;> simp [h, tournamentKey]

theorem tournament_found (db : TournamentsDb) (n g : String) (s : Int)
    (tier : Option String) (e : Option Int) (tv rg lc : Option String)
    (pp tw : Option Int) (pg : String) (r : TournamentRow)
    (hn : ¬ n = "") (hg : ¬ g = "")
    (hf : db.rows.find? (tournamentKey n g s) = some r) :
    get_or_create_tournament db n g (some s) tier e tv rg lc pp tw pg =
      (some r.tournament_id,
       ⟨db.rows.map (tournamentUpd tier e tv rg lc pp tw r.tournament_id), db.nextId⟩) := by
  unfold get_or_create_tournament tournamentUpd
  rw [if_neg (by simp [hg] : ¬ (g = "" ∨ (some s : Option Int) = none))]
  simp only [if_neg hn, hf]

theorem tournament_notfound (db : TournamentsDb) (n g : String) (s : Int)
    (tier : Option String) (e : Option Int) (tv rg lc : Option String)
    (pp tw : Option Int) (pg : String)
    (hn : ¬ n = "") (hg : ¬ g = "")
    (hf : db.rows.find? (tournamentKey n g s) = none) :
    get_or_create_tournament db n g (some s) tier e tv rg lc pp tw pg =
      (some db.nextId,
       ⟨db.rows ++ [({ tournament_id := db.nextId, tournament_name := n, game_id := g,
                       start_date := s, end_date := e, tier := tier, type_val := tv,
                       region := rg, location := lc, prize_pool := pp,
                       tournament_weight := tw } : TournamentRow)],
        db.nextId + 1⟩) := by
  unfold get_or_create_tournament
  rw [if_neg (by simp [hg] : ¬ (g = "" ∨ (some s : Option Int) = none))]
  simp only [if_neg hn, hf]

theorem teamUpd_id (reg loc : Option String) (dis : Option Bool) (rid : Nat)
    (t : TeamRow) : (teamUpd reg loc dis rid t).team_id = t.team_id := by
  unfold teamUpd
  by_cases h : t.team_id == rid <;> simp [h]

theorem playerUpd_id (bd : Option Int) (nat st cr ty : Option String) (rid : Nat)
    (t : PlayerRow) : (playerUpd bd nat st cr ty rid t).player_id = t.player_id := by
  unfold playerUpd
  by_cases h : t.player_id == rid <;> simp [h]

theorem tournamentUpd_id (tier : Option String) (e : Option Int)
    (tv rg lc : Option String) (pp tw : Option Int) (rid : Nat) (t : TournamentRow) :
    (tournamentUpd tier e tv rg lc pp tw rid t).tournament_id = t.tournament_id := by
  unfold tournamentUpd
  by_cases h : t.tournament_id == rid <;> simp [h]

/-! ## Idempotence of the get-or-create reconcilers -/

/-- C3: for each entity kind (team, player, tournament), reconciling the
same natural key with the same attribute values twice returns the same
identifier both times (and an identifier is returned), and after the
second call exactly one row matches the natural key — the second call
creates no duplicate.  The store is assumed to satisfy its natural-key
uniqueness constraint beforehand (at most one row per key). -/
theorem reconcilers_idempotent :
    (∀ (db : TeamsDb) (n g : String) (reg loc : Option String) (dis : Option Bool)
        (pg : String), ¬ n = "" → ¬ g = "" →
      (db.rows.filter (teamKey n g)).length ≤ 1 →
      (get_or_create_team (get_or_create_team db n g reg loc dis pg).2 n g reg loc dis pg).1
          = (get_or_create_team db n g reg loc dis pg).1 ∧
      (get_or_create_team db n g reg loc dis pg).1.isSome = true ∧
      ((get_or_create_team (get_or_create_team db n g reg loc dis pg).2 n g reg loc
          dis pg).2.rows.filter (teamKey n g)).length = 1) ∧
    (∀ (db : PlayersDb) (n g : String) (bd : Option Int)
        (nat st cr ty : Option String) (pg : String), ¬ n = "" → ¬ g = "" →
      (db.rows.filter (playerKey n g)).length ≤ 1 →
      (get_or_create_player (get_or_create_player db n g bd nat st cr ty pg).2 n g bd
          nat st cr ty pg).1 = (get_or_create_player db n g bd nat st cr ty pg).1 ∧
      (get_or_create_player db n g bd nat st cr ty pg).1.isSome = true ∧
      ((get_or_create_player (get_or_create_player db n g bd nat st cr ty pg).2 n g bd
          nat st cr ty pg).2.rows.filter (playerKey n g)).length = 1) ∧
    (∀ (db : TournamentsDb) (n g : String) (s : Int) (tier : Option String)
        (e : Option Int) (tv rg lc : Option String) (pp tw : Option Int)
        (pg : String), ¬ n = "" → ¬ g = "" →
      (db.rows.filter (tournamentKey n g s)).length ≤ 1 →
      (get_or_create_tournament
          (get_or_create_tournament db n g (some s) tier e tv rg lc pp tw pg).2
          n g (some s) tier e tv rg lc pp tw pg).1
        = (get_or_create_tournament db n g (some s) tier e tv rg lc pp tw pg).1 ∧
      (get_or_create_tournament db n g (some s) tier e tv rg lc pp tw pg).1.isSome = true ∧
      ((get_or_create_tournament
          (get_or_create_tournament db n g (some s) tier e tv rg lc pp tw pg).2
          n g (some s) tier e tv rg lc pp tw pg).2.rows.filter
            (tournamentKey n g s)).length = 1) := by
  refine ⟨?_, ?_, ?_⟩
  · intro db n g reg loc dis pg hn hg huniq
    rcases hf : db.rows.find? (teamKey n g) with _ | r
    · rw [team_notfound db n g reg loc dis pg hn hg hf]
      have hf2 : (db.rows ++ [({ team_id := db.nextId, team_name := n, game_id := g,
                                 region := reg, location := loc,
                                 is_disbanded := dis.getD false } : TeamRow)]).find?
          (teamKey n g) = some ({ team_id := db.nextId, team_name := n, game_id := g,
                                  region := reg, location := loc,
                                  is_disbanded := dis.getD false } : TeamRow) := by
        rw [List.find?_append, hf]
        simp [List.find?_cons, teamKey]
      rw [team_found _ n g reg loc dis pg _ hn hg hf2]
      refine ⟨rfl, rfl, ?_⟩
      rw [length_filter_map_invariant _ _ (teamKey_teamUpd n g reg loc dis _),
        List.filter_append, filter_nil_of_find?_none hf]
      simp [teamKey]
    · rw [team_found db n g reg loc dis pg r hn hg hf]
      have hf2 : (db.rows.map (teamUpd reg loc dis r.team_id)).find? (teamKey n g)
          = some (teamUpd reg loc dis r.team_id r) := by
        rw [find?_map_invariant _ _ (teamKey_teamUpd n g reg loc dis _), hf]
        rfl
      rw [team_found _ n g reg loc dis pg _ hn hg hf2]
      refine ⟨by rw [teamUpd_id], rfl, ?_⟩
      rw [length_filter_map_invariant _ _ (teamKey_teamUpd n g reg loc dis _),
        length_filter_map_invariant _ _ (teamKey_teamUpd n g reg loc dis _)]
      exact Nat.le_antisymm huniq (one_le_length_filter hf)
  · intro db n g bd nat st cr ty pg hn hg huniq
    rcases hf : db.rows.find? (playerKey n g) with _ | r
    · rw [player_notfound db n g bd nat st cr ty pg hn hg hf]
      have hf2 : (db.rows ++ [({ player_id := db.nextId, player_nickname := n,
                                 game_id := g, birth_date := bd, nationality := nat,
                                 status := st, curr_role := cr,
                                 ptype := ty } : PlayerRow)]).find?
          (playerKey n g) = some ({ player_id := db.nextId, player_nickname := n,
                                    game_id := g, birth_date := bd, nationality := nat,
                                    status := st, curr_role := cr,
                                    ptype := ty } : PlayerRow) := by
        rw [List.find?_append, hf]
        simp [List.find?_cons, playerKey]
      rw [player_found _ n g bd nat st cr ty pg _ hn hg hf2]
      refine ⟨rfl, rfl, ?_⟩
      rw [length_filter_map_invariant _ _ (playerKey_playerUpd n g bd nat st cr ty _),
        List.filter_append, filter_nil_of_find?_none hf]
      simp [playerKey]
    · rw [player_found db n g bd nat st cr ty pg r hn hg hf]
      have hf2 : (db.rows.map (playerUpd bd nat st cr ty r.player_id)).find? (playerKey n g)
          = some (playerUpd bd nat st cr ty r.player_id r) := by
        rw [find?_map_invariant _ _ (playerKey_playerUpd n g bd nat st cr ty _), hf]
        rfl
      rw [player_found _ n g bd nat st cr ty pg _ hn hg hf2]
      refine ⟨by rw [playerUpd_id], rfl, ?_⟩
      rw [length_filter_map_invariant _ _ (playerKey_playerUpd n g bd nat st cr ty _),
        length_filter_map_invariant _ _ (playerKey_playerUpd n g bd nat st cr ty _)]
      exact Nat.le_antisymm huniq (one_le_length_filter hf)
  · intro db n g s tier e tv rg lc pp tw pg hn hg huniq
    rcases hf : db.rows.find? (tournamentKey n g s) with _ | r
    · rw [tournament_notfound db n g s tier e tv rg lc pp tw pg hn hg hf]
      have hf2 : (db.rows ++ [({ tournament_id := db.nextId, tournament_name := n,
                                 game_id := g, start_date := s, end_date := e,
                                 tier := tier, type_val := tv, region := rg,
                                 location := lc, prize_pool := pp,
                                 tournament_weight := tw } : TournamentRow)]).find?
          (tournamentKey n g s)
            = some ({ tournament_id := db.nextId, tournament_name := n,
                      game_id := g, start_date := s, end_date := e,
                      tier := tier, type_val := tv, region := rg,
                      location := lc, prize_pool := pp,
                      tournament_weight := tw } : TournamentRow) := by
        rw [List.find?_append, hf]
        simp [List.find?_cons, tournamentKey]
      rw [tournament_found _ n g s tier e tv rg lc pp tw pg _ hn hg hf2]
      refine ⟨rfl, rfl, ?_⟩
      rw [length_filter_map_invariant _ _
          (tournamentKey_tournamentUpd n g s tier e tv rg lc pp tw _),
        List.filter_append, filter_nil_of_find?_none hf]
      simp [tournamentKey]
    · rw [tournament_found db n g s tier e tv rg lc pp tw pg r hn hg hf]
      have hf2 : (db.rows.map (tournamentUpd tier e tv rg lc pp tw r.tournament_id)).find?
          (tournamentKey n g s) = some (tournamentUpd tier e tv rg lc pp tw r.tournament_id r) := by
        rw [find?_map_invariant _ _
          (tournamentKey_tournamentUpd n g s tier e tv rg lc pp tw _), hf]
        rfl
      rw [tournament_found _ n g s tier e tv rg lc pp tw pg _ hn hg hf2]
      refine ⟨by rw [tournamentUpd_id], rfl, ?_⟩
      rw [length_filter_map_invariant _ _
          (tournamentKey_tournamentUpd n g s tier e tv rg lc pp tw _),
        length_filter_map_invariant _ _
          (tournamentKey_tournamentUpd n g s tier e tv rg lc pp tw _)]
      exact Nat.le_antisymm huniq (one_le_length_filter hf)

/-- C3 witness: the three reconcilers applied twice on an initially empty
store with a concrete natural key. -/
theorem reconcilers_idempotent_witness :
    ((get_or_create_team (get_or_create_team ⟨[], 1⟩ "T" "g" none none none "").2
          "T" "g" none none none "").1
        = (get_or_create_team ⟨[], 1⟩ "T" "g" none none none "").1 ∧
      (get_or_create_team ⟨[], 1⟩ "T" "g" none none none "").1.isSome = true ∧
      ((get_or_create_team (get_or_create_team ⟨[], 1⟩ "T" "g" none none none "").2
          "T" "g" none none none "").2.rows.filter (teamKey "T" "g")).length = 1) ∧
    ((get_or_create_player (get_or_create_player ⟨[], 1⟩ "P" "g" none none none none
          none "").2 "P" "g" none none none none none "").1
        = (get_or_create_player ⟨[], 1⟩ "P" "g" none none none none none "").1 ∧
      (get_or_create_player ⟨[], 1⟩ "P" "g" none none none none none "").1.isSome = true ∧
      ((get_or_create_player (get_or_create_player ⟨[], 1⟩ "P" "g" none none none none
          none "").2 "P" "g" none none none none none "").2.rows.filter
            (playerKey "P" "g")).length = 1) ∧
    ((get_or_create_tournament (get_or_create_tournament ⟨[], 1⟩ "M" "g" (some 3) none
          none none none none none none "").2 "M" "g" (some 3) none none none none none
          none none "").1
        = (get_or_create_tournament ⟨[], 1⟩ "M" "g" (some 3) none none none none none
            none none "").1 ∧
      (get_or_create_tournament ⟨[], 1⟩ "M" "g" (some 3) none none none none none
          none none "").1.isSome = true ∧
      ((get_or_create_tournament (get_or_create_tournament ⟨[], 1⟩ "M" "g" (some 3) none
          none none none none none none "").2 "M" "g" (some 3) none none none none none
          none none "").2.rows.filter (tournamentKey "M" "g" 3)).length = 1) :=
  ⟨reconcilers_idempotent.1 ⟨[], 1⟩ "T" "g" none none none ""
      (by decide) (by decide) (by decide),
   reconcilers_idempotent.2.1 ⟨[], 1⟩ "P" "g" none none none none none ""
      (by decide) (by decide) (by decide),
   reconcilers_idempotent.2.2 ⟨[], 1⟩ "M" "g" 3 none none none none none none none ""
      (by decide) (by decide) (by decide)⟩

/-! ## Single-field update of an existing row -/

/-- C4: when the reconciler finds an existing row for the natural key and
exactly one optional attribute is supplied (all others passed as the
absent sentinel `none`), the call returns the existing identifier, keeps
the table the same length, changes no other row, never touches identifier
or natural-key columns, leaves every unsupplied attribute column unchanged
on every row, and sets the supplied attribute on the found row's id.
Stated for the team and player reconcilers (the two cited by the spec). -/
theorem reconciler_single_field_update :
    (∀ (db : TeamsDb) (n g : String) (reg loc : Option String) (dis : Option Bool)
        (pg : String) (r : TeamRow), ¬ n = "" → ¬ g = "" →
      db.rows.find? (teamKey n g) = some r →
      ((reg.isSome = true ∧ loc = none ∧ dis = none) ∨
       (reg = none ∧ loc.isSome = true ∧ dis = none) ∨
       (reg = none ∧ loc = none ∧ dis.isSome = true)) →
      (get_or_create_team db n g reg loc dis pg).1 = some r.team_id ∧
      (get_or_create_team db n g reg loc dis pg).2.rows.length = db.rows.length ∧
      (∀ (j : Nat) (t t' : TeamRow), db.rows[j]? = some t →
        (get_or_create_team db n g reg loc dis pg).2.rows[j]? = some t' →
        t'.team_id = t.team_id ∧ t'.team_name = t.team_name ∧ t'.game_id = t.game_id ∧
        (¬ t.team_id = r.team_id → t' = t) ∧
        (reg = none → t'.region = t.region) ∧
        (loc = none → t'.location = t.location) ∧
        (dis = none → t'.is_disbanded = t.is_disbanded) ∧
        (t.team_id = r.team_id →
          (∀ v, reg = some v → t'.region = some v) ∧
          (∀ v, loc = some v → t'.location = some v) ∧
          (∀ v, dis = some v → t'.is_disbanded = v)))) ∧
    (∀ (db : PlayersDb) (n g : String) (bd : Option Int)
        (nat st cr ty : Option String) (pg : String) (r : PlayerRow),
      ¬ n = "" → ¬ g = "" →
      db.rows.find? (playerKey n g) = some r →
      ((bd.isSome = true ∧ nat = none ∧ st = none ∧ cr = none ∧ ty = none) ∨
       (bd = none ∧ nat.isSome = true ∧ st = none ∧ cr = none ∧ ty = none) ∨
       (bd = none ∧ nat = none ∧ st.isSome = true ∧ cr = none ∧ ty = none) ∨
       (bd = none ∧ nat = none ∧ st = none ∧ cr.isSome = true ∧ ty = none) ∨
       (bd = none ∧ nat = none ∧ st = none ∧ cr = none ∧ ty.isSome = true)) →
      (get_or_create_player db n g bd nat st cr ty pg).1 = some r.player_id ∧
      (get_or_create_player db n g bd nat st cr ty pg).2.rows.length = db.rows.length ∧
      (∀ (j : Nat) (t t' : PlayerRow), db.rows[j]? = some t →
        (get_or_create_player db n g bd nat st cr ty pg).2.rows[j]? = some t' →
        t'.player_id = t.player_id ∧ t'.player_nickname = t.player_nickname ∧
        t'.game_id = t.game_id ∧
        (¬ t.player_id = r.player_id → t' = t) ∧
        (bd = none → t'.birth_date = t.birth_date) ∧
        (nat = none → t'.nationality = t.nationality) ∧
        (st = none → t'.status = t.status) ∧
        (cr = none → t'.curr_role = t.curr_role) ∧
        (ty = none → t'.ptype = t.ptype) ∧
        (t.player_id = r.player_id →
          (∀ v, bd = some v → t'.birth_date = some v) ∧
          (∀ v, nat = some v → t'.nationality = some v) ∧
          (∀ v, st = some v → t'.status = some v) ∧
          (∀ v, cr = some v → t'.curr_role = some v) ∧
          (∀ v, ty = some v → t'.ptype = some v)))) := by
  constructor
  · intro db n g reg loc dis pg r hn hg hf _
    rw [team_found db n g reg loc dis pg r hn hg hf]
    refine ⟨rfl, by simp, ?_⟩
    intro j t t' ht ht'
    simp only [List.getElem?_map, ht, Option.map_some] at ht'
    have ht'' : t' = teamUpd reg loc dis r.team_id t := by
      exact (Option.some_inj.mp ht').symm
    subst ht''
    unfold teamUpd
    by_cases hid : t.team_id = r.team_id
    · rw [if_pos (beq_iff_eq.mpr hid)]
      refine ⟨rfl, rfl, rfl, fun h => absurd hid h, ?_, ?_, ?_, ?_⟩
      · intro h; subst h; rfl
      · intro h; subst h; rfl
      · intro h; subst h; rfl
      · intro _
        refine ⟨?_, ?_, ?_⟩
        · intro v h; subst h; rfl
        · intro v h; subst h; rfl
        · intro v h; subst h; rfl
    · rw [if_neg (fun hb => hid (beq_iff_eq.mp hb))]
      exact ⟨rfl, rfl, rfl, fun _ => rfl, fun _ => rfl, fun _ => rfl, fun _ => rfl,
        fun h => absurd h hid⟩
  · intro db n g bd nat st cr ty pg r hn hg hf _
    rw [player_found db n g bd nat st cr ty pg r hn hg hf]
    refine ⟨rfl, by simp, ?_⟩
    intro j t t' ht ht'
    simp only [List.getElem?_map, ht, Option.map_some] at ht'
    have ht'' : t' = playerUpd bd nat st cr ty r.player_id t := by
      exact (Option.some_inj.mp ht').symm
    subst ht''
    unfold playerUpd
    by_cases hid : t.player_id = r.player_id
    · rw [if_pos (beq_iff_eq.mpr hid)]
      refine ⟨rfl, rfl, rfl, fun h => absurd hid h, ?_, ?_, ?_, ?_, ?_, ?_⟩
      · intro h; subst h; rfl
      · intro h; subst h; rfl
      · intro h; subst h; rfl
      · intro h; subst h; rfl
      · intro h; subst h; rfl
      · intro _
        refine ⟨?_, ?_, ?_, ?_, ?_⟩
        · intro v h; subst h; rfl
        · intro v h; subst h; rfl
        · intro v h; subst h; rfl
        · intro v h; subst h; rfl
        · intro v h; subst h; rfl
    · rw [if_neg (fun hb => hid (beq_iff_eq.mp hb))]
      exact ⟨rfl, rfl, rfl, fun _ => rfl, fun _ => rfl, fun _ => rfl, fun _ => rfl,
        fun _ => rfl, fun _ => rfl, fun h => absurd h hid⟩

/-- C4 witness: updating exactly one optional attribute of an existing
team row (region) and of an existing player row (nationality) returns the
stored identifiers. -/
theorem reconciler_single_field_update_witness :
    (get_or_create_team ⟨[⟨3, "T", "g", none, none, false⟩], 5⟩ "T" "g"
        (some "EU") none none "").1 = some 3 ∧
    (get_or_create_player ⟨[⟨4, "P", "g", none, none, none, none, none⟩], 6⟩ "P" "g"
        none (some "AR") none none none "").1 = some 4 := by
  constructor
  · exact (reconciler_single_field_update.1 ⟨[⟨3, "T", "g", none, none, false⟩], 5⟩
      "T" "g" (some "EU") none none "" ⟨3, "T", "g", none, none, false⟩
      (by decide) (by decide) (by decide) (by decide)).1
  · exact (reconciler_single_field_update.2 ⟨[⟨4, "P", "g", none, none, none, none, none⟩], 6⟩
      "P" "g" none (some "AR") none none none "" ⟨4, "P", "g", none, none, none, none, none⟩
      (by decide) (by decide) (by decide) (by decide)).1

/-! ## The tournament date-range invariant -/

/-- C8 counterexample: `get_or_create_tournament` performs no validation of
the supplied dates — inserting with start date 10 and end date 5 creates a
stored row violating start_date ≤ end_date, so the invariant does not hold
for every row created through the reconciler. -/
theorem tournament_dates_unchecked_cex :
    ((get_or_create_tournament ⟨[], 1⟩ "T" "g" (some 10) none (some 5) none none none
        none none "").2.rows.all rowDatesOkB) = false := by
  decide

/-- C8 (amended): the reconciler itself never checks the date order; the
invariant is only preserved conditionally.  If every stored row satisfies
start ≤ end (when the end is present), row ids are unique, and the call's
own arguments satisfy it (start ≤ the supplied end date, when supplied),
then every row after the call — inserted or field-updated — still
satisfies it; a call whose arguments violate the order produces a
violating row (see the counterexample). -/
theorem tournament_dates_conditional_preservation
    (db : TournamentsDb) (n g : String) (s : Int) (tier : Option String)
    (e : Option Int) (tv rg lc : Option String) (pp tw : Option Int) (pg : String)
    (hn : ¬ n = "") (hg : ¬ g = "")
    (hinv : ∀ r ∈ db.rows, rowDatesOkB r = true)
    (hids : (db.rows.map TournamentRow.tournament_id).Nodup)
    (hargs : ∀ ev, e = some ev → s ≤ ev) :
    ∀ r ∈ (get_or_create_tournament db n g (some s) tier e tv rg lc pp tw pg).2.rows,
      rowDatesOkB r = true := by
  rcases hf : db.rows.find? (tournamentKey n g s) with _ | f
  · rw [tournament_notfound db n g s tier e tv rg lc pp tw pg hn hg hf]
    intro r hr
    rcases List.mem_append.mp hr with hr' | hr'
    · exact hinv r hr'
    · have hre : r = ({ tournament_id := db.nextId, tournament_name := n, game_id := g,
                        start_date := s, end_date := e, tier := tier, type_val := tv,
                        region := rg, location := lc, prize_pool := pp,
                        tournament_weight := tw } : TournamentRow) := by
        simpa using hr'
      subst hre
      unfold rowDatesOkB
      cases he : e with
      | none => rfl
      | some ev => simpa using hargs ev he
  · rw [tournament_found db n g s tier e tv rg lc pp tw pg f hn hg hf]
    intro r hr
    rcases List.mem_map.mp hr with ⟨t, htmem, hteq⟩
    subst hteq
    unfold tournamentUpd
    by_cases hid : t.tournament_id = f.tournament_id
    · rw [if_pos (beq_iff_eq.mpr hid)]
      have hfmem : f ∈ db.rows := List.mem_of_find?_eq_some hf
      have htf : t = f := List.inj_on_of_nodup_map hids htmem hfmem hid
      subst htf
      have hstart : t.start_date = s := by
        have hk := List.find?_some hf
        unfold tournamentKey at hk
        simp only [Bool.and_eq_true, beq_iff_eq] at hk
        exact hk.2
      unfold rowDatesOkB
      cases he : e with
      | none =>
        have hti := hinv t htmem
        unfold rowDatesOkB at hti
        simpa [updOpt] using hti
      | some ev =>
        simp only [updOpt, hstart]
        simpa using hargs ev he
    · rw [if_neg (fun hb => hid (beq_iff_eq.mp hb))]
      exact hinv t htmem

/-- C8 amended-claim witness: inserting into an empty store with ordered
dates (start 3, end 12) leaves every row satisfying the invariant. -/
theorem tournament_dates_conditional_preservation_witness :
    ((get_or_create_tournament ⟨[], 1⟩ "T" "g" (some 3) none (some 12) none none none
        none none "").2.rows.all rowDatesOkB) = true := by
  rw [List.all_eq_true]
  exact tournament_dates_conditional_preservation ⟨[], 1⟩ "T" "g" 3 none (some 12)
    none none none none none "" (by decide) (by decide) (by simp) (by simp)
    (by intro ev h; injection h with h2; omega)

/-! ## Character-list facts for the stage-stripping proofs -/

theorem mem_dropWhile_of_not {p : Char → Bool} {c : Char} (hc : p c = false) :
    ∀ {l : List Char}, c ∈ l → c ∈ l.dropWhile p := by
  intro l
  induction l with
  | nil => intro h; exact absurd h (List.not_mem_nil c)
  | cons a t ih =>
    intro hmem
    rw [List.dropWhile_cons]
    by_cases ha : p a = true
    · rw [if_pos ha]
      rcases List.mem_cons.mp hmem with hca | hct
      · subst hca; rw [hc] at ha; exact absurd ha (by simp)
      · exact ih hct
    · rw [if_neg ha]
      exact hmem

theorem mem_stripEnd_of_not {c : Char} (hc : isWs c = false) {l : List Char}
    (h : c ∈ l) : c ∈ stripEnd l := by
  unfold stripEnd
  rw [List.mem_reverse]
  exact mem_dropWhile_of_not hc (List.mem_reverse.mpr h)

theorem dropWhile_append_of_mem {p : Char → Bool} {u : List Char} (v : List Char)
    (h : ∃ c ∈ u, p c = false) :
    (u ++ v).dropWhile p = u.dropWhile p ++ v ∧ u.dropWhile p ≠ [] := by
  obtain ⟨c, hcm, hc⟩ := h
  have hne : u.dropWhile p ≠ [] := List.ne_nil_of_mem (mem_dropWhile_of_not hc hcm)
  constructor
  · rw [List.dropWhile_append]
    rw [if_neg (by simpa [List.isEmpty_iff] using hne)]
  · exact hne

theorem getLastD_mem : ∀ (l : List Char) (d : Char), l ≠ [] → l.getLastD d ∈ l := by
  intro l
  induction l with
  | nil => intro d h; exact absurd rfl h
  | cons a t ih =>
    intro d _
    rw [List.getLastD_cons]
    cases ht : t with
    | nil => simp
    | cons b t' =>
      have := ih a (by simp [ht])
      rw [ht] at this
      exact List.mem_cons_of_mem a this

theorem getLastD_irrel : ∀ (l : List Char) (a b : Char), l ≠ [] →
    l.getLastD a = l.getLastD b := by
  intro l
  induction l with
  | nil => intro a b h; exact absurd rfl h
  | cons c t ih =>
    intro a b _
    rw [List.getLastD_cons, List.getLastD_cons]

theorem exists_nonWs_drop : ∀ (l : List Char) (i : Nat), i < l.length →
    isWs (l.getLastD '!') = false → ∃ c ∈ l.drop i, isWs c = false := by
  intro l
  induction l with
  | nil => intro i h _; simp at h
  | cons a t ih =>
    intro i hi hlast
    cases i with
    | zero =>
      refine ⟨(a :: t).getLastD '!', ?_, hlast⟩
      exact getLastD_mem (a :: t) '!' (by simp)
    | succ j =>
      have hj : j < t.length := by simpa using hi
      have htne : t ≠ [] := by
        intro h; rw [h] at hj; simp at hj
      have hlast' : isWs (t.getLastD '!') = false := by
        rw [List.getLastD_cons] at hlast
        rw [getLastD_irrel t '!' a htne]
        exact hlast
      simpa using ih j hj hlast'

theorem goodBase_spec {l : List Char} (h : goodBase l = true) :
    l ≠ [] ∧ isWs (l.headD '!') = false ∧ isWs (l.getLastD '!') = false ∧
      '_' ∉ l := by
  unfold goodBase at h
  simp only [Bool.and_eq_true, Bool.not_eq_true'] at h
  refine ⟨?_, h.1.1.2, h.1.2, by simpa using h.2⟩
  have := h.1.1.1
  simpa [List.isEmpty_iff] using this

/-! ## `re.sub` / `strip` behaviour on well-shaped names -/

/-- Leftmost-match removal: when no tail starting inside `n` matches but
the tail `t` does, the end-anchored substitution removes exactly `t`. -/
theorem reSubTail_append (m : List Char → Bool) :
    ∀ (n t : List Char), (∀ i, i < n.length → m (n.drop i ++ t) = false) →
      m t = true → reSubTail m (n ++ t) = n := by
  intro n
  induction n with
  | nil =>
    intro t _ hm
    cases t with
    | nil => rfl
    | cons c cs =>
      show reSubTail m (c :: cs) = []
      unfold reSubTail
      rw [if_pos hm]
  | cons a n' ih =>
    intro t hno hm
    have h0 : m (a :: (n' ++ t)) = false := by
      have := hno 0 (by simp)
      simpa using this
    show reSubTail m (a :: (n' ++ t)) = a :: n'
    unfold reSubTail
    rw [if_neg (by simp [h0])]
    congr 1
    exact ih t (fun i hi => by simpa using hno (i + 1) (by simpa using hi)) hm

theorem dropWs_eq_self {l : List Char} (hne : l ≠ [])
    (hhead : isWs (l.headD '!') = false) : dropWs l = l := by
  cases l with
  | nil => exact absurd rfl hne
  | cons a t =>
    unfold dropWs
    rw [List.dropWhile_cons]
    simp only [List.headD_cons] at hhead
    rw [if_neg (by simp [hhead])]

theorem stripEnd_eq_self {l : List Char} (hne : l ≠ [])
    (hlast : isWs (l.getLastD '!') = false) : stripEnd l = l := by
  rcases List.eq_nil_or_concat l with h | ⟨L, b, h⟩
  · exact absurd h hne
  · subst h
    rw [List.concat_eq_append] at hlast ⊢
    unfold stripEnd
    rw [List.reverse_append]
    simp only [List.reverse_cons, List.reverse_nil, List.nil_append, List.singleton_append]
    rw [List.dropWhile_cons]
    rw [List.getLastD_concat] at hlast
    rw [if_neg (by simp [hlast])]
    simp

theorem stripBoth_eq_self {l : List Char} (hne : l ≠ [])
    (hhead : isWs (l.headD '!') = false) (hlast : isWs (l.getLastD '!') = false) :
    stripBoth l = l := by
  unfold stripBoth
  rw [dropWs_eq_self hne hhead, stripEnd_eq_self hne hlast]

theorem map_underscore_id {l : List Char} (h : '_' ∉ l) :
    l.map underscoreToSpace = l := by
  induction l with
  | nil => rfl
  | cons a t ih =>
    have ha : a ≠ '_' := by
      intro e
      subst e
      exact h (List.mem_cons_self '_' t)
    have ht : '_' ∉ t := fun hm => h (List.mem_cons_of_mem a hm)
    rw [List.map_cons, ih ht]
    congr 1
    unfold underscoreToSpace
    rw [if_neg (by simp [ha])]

/-! ## Facts about the stage-word catalogue (all decidable) -/

theorem stageWords_shape : ∀ w ∈ stageWords, w ≠ [] ∧ isWs (w.headD '!') = false ∧
    isWs (w.getLastD '!') = false ∧ '_' ∉ w := by
  decide

theorem stageWords_no_colon : ∀ w ∈ stageWords, ':' ∉ w.map lowerChar := by
  decide

theorem matchTail_at_colon_sep : ∀ s ∈ stageWords,
    matchTail (Pat.sepWords ':' stageWords) (':' :: ' ' :: s) = true := by
  decide

theorem headD_append {u : List Char} (v : List Char) (d : Char) (hu : u ≠ []) :
    (u ++ v).headD d = u.headD d := by
  cases u with
  | nil => exact absurd rfl hu
  | cons a t => rfl

theorem getLastD_append_right (u : List Char) {v : List Char} (d : Char) (hv : v ≠ []) :
    (u ++ v).getLastD d = v.getLastD d := by
  induction u with
  | nil => rfl
  | cons a t ih =>
    have htv : t ++ v ≠ [] := by
      intro h
      rcases List.append_eq_nil.mp h with ⟨-, h2⟩
      exact hv h2
    rw [List.cons_append, List.getLastD_cons, getLastD_irrel (t ++ v) a d htv]
    exact ih

theorem not_mem_append {c : Char} {u v : List Char} (hu : c ∉ u) (hv : c ∉ v) :
    c ∉ u ++ v := by
  intro h
  rcases List.mem_append.mp h with h' | h'
  · exact hu h'
  · exact hv h'

/-! ## No stage-pattern match can start inside a well-shaped base name

The first stage pattern is `\s*:\s*(word)\s*$`.  A tail that starts inside
the base name `n` (at any index `i < n.length`) still contains some
non-whitespace character of `n`, so after skipping whitespace the scanner
either sees a character other than `:` — no match — or sees a `:` of `n`
itself, in which case the remainder still contains the real separator `:`
while no catalogue word contains a colon — again no match. -/
theorem no_colon_match_inside (u s : List Char)
    (hu : ∃ c ∈ u, isWs c = false) (hs : s ∈ stageWords) :
    matchTail (Pat.sepWords ':' stageWords) (u ++ ':' :: ' ' :: s) = false := by
  obtain ⟨happ, hne⟩ := @dropWhile_append_of_mem isWs u (':' :: ' ' :: s) hu
  show (match dropWs (u ++ ':' :: ' ' :: s) with
        | [] => false
        | c :: rest =>
          c == ':' && stageWords.any (fun w => lowEq (stripEnd (dropWs rest)) w)) = false
  unfold dropWs
  rw [happ]
  cases hdu : List.dropWhile isWs u with
  | nil => exact absurd hdu hne
  | cons a rest =>
    simp only [List.cons_append]
    by_cases ha : a = ':'
    · subst ha
      simp only [beq_self_eq_true, Bool.true_and]
      rw [List.any_eq_false]
      intro w hw
      have hcolon_body : ':' ∈ stripEnd (dropWs (rest ++ ':' :: ' ' :: s)) := by
        apply mem_stripEnd_of_not (by decide)
        apply mem_dropWhile_of_not (by decide)
        simp
      simp only [Bool.not_eq_true]
      by_contra hle
      rw [Bool.not_eq_false] at hle
      unfold lowEq at hle
      have hmaps := beq_iff_eq.mp hle
      have hmem : ':' ∈ (stripEnd (dropWs (rest ++ ':' :: ' ' :: s))).map lowerChar := by
        have hm := List.mem_map_of_mem lowerChar hcolon_body
        simpa [show lowerChar ':' = ':' from by decide] using hm
      unfold dropWs at hmem
      rw [hmaps] at hmem
      exact stageWords_no_colon w hw hmem
    · simp [ha]

/-- Stripping the first stage pattern from `base ++ ": " ++ word` removes
exactly the `": " ++ word` suffix, leaving the base name. -/
theorem stage_strip_exact (n s : List Char) (hn : goodBase n = true)
    (hs : s ∈ stageWords) :
    reSubTail (matchTail (Pat.sepWords ':' stageWords)) (n ++ ':' :: ' ' :: s) = n := by
  obtain ⟨hne, hhead, hlast, hund⟩ := goodBase_spec hn
  apply reSubTail_append
  · intro i hi
    exact no_colon_match_inside (n.drop i) s (exists_nonWs_drop n i hi hlast) hs
  · exact matchTail_at_colon_sep s hs

/-! ## The candidate list only grows, and starts with the cleaned name -/

theorem addName_grows (ns : List (List Char)) (x : List Char) :
    ∃ e, addName ns x = ns ++ e := by
  unfold addName
  by_cases h : x ∈ ns
  · exact ⟨[], by rw [if_pos h]; simp⟩
  · exact ⟨[x], by rw [if_neg h]⟩

theorem splitExtras_grows (ns : List (List Char)) (b : List Char) :
    ∃ e, splitExtras ns b = ns ++ e := by
  unfold splitExtras
  have step1 : ∃ e1, (if ':' ∈ b then
      (if stripBoth (splitColon b) ≠ [] then addName ns (stripBoth (splitColon b)) else ns)
    else ns) = ns ++ e1 := by
    by_cases hc : ':' ∈ b
    · rw [if_pos hc]
      by_cases hp : stripBoth (splitColon b) ≠ []
      · rw [if_pos hp]; exact addName_grows ns _
      · rw [if_neg hp]; exact ⟨[], by simp⟩
    · rw [if_neg hc]; exact ⟨[], by simp⟩
  obtain ⟨e1, h1⟩ := step1
  simp only [h1]
  by_cases hd : (dashSplit b).isSome
  · rw [if_pos hd]
    by_cases hp : stripBoth ((dashSplit b).getD []) ≠ []
    · rw [if_pos hp]
      obtain ⟨e2, h2⟩ := addName_grows (ns ++ e1) (stripBoth ((dashSplit b).getD []))
      exact ⟨e1 ++ e2, by rw [h2, List.append_assoc]⟩
    · rw [if_neg hp]; exact ⟨e1, rfl⟩
  · rw [if_neg hd]; exact ⟨e1, rfl⟩

theorem stepPat_grows (st : List (List Char) × List Char) (p : Pat) :
    ∃ e, (stepPat st p).1 = st.1 ++ e := by
  unfold stepPat
  set stripped := stripBoth (reSubTail (matchTail p) st.2) with hs
  by_cases hc : stripped ≠ st.2 ∧ stripped ≠ []
  · simp only [if_pos hc]
    obtain ⟨e1, h1⟩ := addName_grows st.1 stripped
    obtain ⟨e2, h2⟩ := splitExtras_grows (addName st.1 stripped) stripped
    exact ⟨e1 ++ e2, by rw [h2, h1, List.append_assoc]⟩
  · simp only [if_neg hc]
    exact splitExtras_grows st.1 st.2

theorem foldl_stepPat_grows : ∀ (ps : List Pat) (st : List (List Char) × List Char),
    ∃ e, (ps.foldl stepPat st).1 = st.1 ++ e := by
  intro ps
  induction ps with
  | nil => intro st; exact ⟨[], by simp⟩
  | cons p ps ih =>
    intro st
    obtain ⟨e1, h1⟩ := stepPat_grows st p
    obtain ⟨e2, h2⟩ := ih (stepPat st p)
    exact ⟨e1 ++ e2, by rw [List.foldl_cons, h2, h1, List.append_assoc]⟩

theorem searchNamesL_head (c : List Char) : ∃ e, searchNamesL c = c :: e := by
  unfold searchNamesL
  obtain ⟨e, h⟩ := foldl_stepPat_grows stagePats ([c], c)
  exact ⟨e, by rw [h]; rfl⟩

/-- The raw name is strictly longer than the base name, so the two are
distinct candidates. -/
theorem base_ne_full (n s : List Char) :
    ¬ n = n ++ ':' :: ' ' :: s := by
  intro h
  have hlen := congrArg List.length h
  simp at hlen

/-- Applying the first stage pattern to the stage-qualified raw name
appends the stripped base name as the second candidate and makes it the
new base. -/
theorem stepPat_stage_colon (n s : List Char) (hn : goodBase n = true)
    (hs : s ∈ stageWords) :
    ∃ ext, stepPat ([n ++ ':' :: ' ' :: s], n ++ ':' :: ' ' :: s)
        (Pat.sepWords ':' stageWords)
      = ((n ++ ':' :: ' ' :: s) :: n :: ext, n) := by
  obtain ⟨hne, hhead, hlast, hund⟩ := goodBase_spec hn
  have hstrip : stripBoth (reSubTail (matchTail (Pat.sepWords ':' stageWords))
      (n ++ ':' :: ' ' :: s)) = n := by
    rw [stage_strip_exact n s hn hs]
    exact stripBoth_eq_self hne hhead hlast
  unfold stepPat
  simp only [hstrip]
  have hcond : n ≠ n ++ ':' :: ' ' :: s ∧ n ≠ [] := ⟨base_ne_full n s, hne⟩
  rw [if_pos hcond, if_pos hcond]
  have haddn : addName [n ++ ':' :: ' ' :: s] n = [n ++ ':' :: ' ' :: s, n] := by
    unfold addName
    rw [if_neg (by simpa using base_ne_full n s)]
    rfl
  rw [haddn]
  obtain ⟨e, he⟩ := splitExtras_grows [n ++ ':' :: ' ' :: s, n] n
  exact ⟨e, by rw [he]; rfl⟩

/-- The candidate list for a stage-qualified raw name starts with the raw
name itself followed by the stripped base name. -/
theorem searchNamesL_stage_colon (n s : List Char) (hn : goodBase n = true)
    (hs : s ∈ stageWords) :
    ∃ ext, searchNamesL (n ++ ':' :: ' ' :: s)
      = (n ++ ':' :: ' ' :: s) :: n :: ext := by
  unfold searchNamesL
  rw [show stagePats = Pat.sepWords ':' stageWords ::
      [Pat.sepWords '-' stageWords, Pat.wsWord "Play-In".data,
       Pat.wsWord "Last Chance Qualifier".data, Pat.wsWord "LCQ".data,
       Pat.wsWord "Regional Finals".data,
       Pat.wsWordNum "Stage".data ['1', '2', '3'],
       Pat.wsWordNum "Phase".data ['1', '2', '3']] from rfl,
    List.foldl_cons]
  obtain ⟨e1, h1⟩ := stepPat_stage_colon n s hn hs
  rw [h1]
  obtain ⟨e2, h2⟩ := foldl_stepPat_grows
    [Pat.sepWords '-' stageWords, Pat.wsWord "Play-In".data,
     Pat.wsWord "Last Chance Qualifier".data, Pat.wsWord "LCQ".data,
     Pat.wsWord "Regional Finals".data,
     Pat.wsWordNum "Stage".data ['1', '2', '3'],
     Pat.wsWordNum "Phase".data ['1', '2', '3']]
    ((n ++ ':' :: ' ' :: s) :: n :: e1, n)
  rw [h2]
  exact ⟨e1 ++ e2, rfl⟩

/-- Normalisation is the identity on a well-shaped stage-qualified name:
no underscores to replace, no surrounding whitespace to strip. -/
theorem cleanName_stage (N S : String) (hN : goodBase N.data = true)
    (hS : S.data ∈ stageWords) :
    cleanName (N ++ ": " ++ S) = N.data ++ ':' :: ' ' :: S.data := by
  obtain ⟨hne, hhead, hlast, hund⟩ := goodBase_spec hN
  obtain ⟨hsne, hshead, hslast, hsund⟩ := stageWords_shape S.data hS
  have hdata : (N ++ ": " ++ S).data = N.data ++ ':' :: ' ' :: S.data := by
    rw [String.data_append, String.data_append, List.append_assoc]
    rfl
  have hsep : '_' ∉ (':' :: ' ' :: S.data) := by
    intro h
    rcases List.mem_cons.mp h with h | h
    · exact absurd h (by decide)
    · rcases List.mem_cons.mp h with h | h
      · exact absurd h (by decide)
      · exact hsund h
  unfold cleanName
  rw [hdata, map_underscore_id (not_mem_append hund hsep)]
  apply stripBoth_eq_self
  · simp
  · rw [headD_append (':' :: ' ' :: S.data) '!' hne]
    exact hhead
  · rw [getLastD_append_right N.data '!' (by simp : (':' :: ' ' :: S.data) ≠ [])]
    rw [show (':' :: ' ' :: S.data) = [':', ' '] ++ S.data from rfl]
    rw [getLastD_append_right [':', ' '] '!' hsne]
    exact hslast

/-- Unfolding of the resolver on well-formed input when some candidate
name succeeds: the result is that candidate's identifier. -/
theorem find_eq_of_tryNames_some (db : List TournamentRow) (raw g : String)
    (d : Int) (i : Nat) (hraw : ¬ raw = "") (hg : ¬ g = "")
    (hcl : ¬ cleanName raw = [])
    (htry : tryNames db g d (searchNamesL (cleanName raw)) = some i) :
    find_tournament_id_for_match db raw g (some d) = some i := by
  unfold find_tournament_id_for_match
  simp [hraw, hg, hcl, htry]

/-- Unfolding of the resolver on well-formed input when every candidate
fails: the result is the name-only fallback on the first candidate. -/
theorem find_eq_of_tryNames_none (db : List TournamentRow) (raw g : String)
    (d : Int) (hraw : ¬ raw = "") (hg : ¬ g = "") (hcl : ¬ cleanName raw = [])
    (htry : tryNames db g d (searchNamesL (cleanName raw)) = none) :
    find_tournament_id_for_match db raw g (some d) =
      closestByStart d (db.filter (fun r =>
        r.tournament_name == String.mk ((searchNamesL (cleanName raw)).headD []) &&
        r.game_id == g)) := by
  unfold find_tournament_id_for_match
  simp [hraw, hg, hcl, htry]

/-! ## C1: stage stripping resolves to the parent tournament -/

/-- C1: with a stage-qualified raw name `N ++ ": " ++ S` (`S` a catalogued
stage suffix, `N` a well-shaped stored name), an observation date `D`, and
a store in which the containment query for the full raw name finds nothing
while the query for `N` finds exactly the row `t` (whose closed window
therefore contains `D`), resolution returns `t`'s identifier. -/
theorem stage_stripping_resolves_parent
    (db : List TournamentRow) (N S G : String) (D : Int) (t : TournamentRow)
    (hS : S.data ∈ stageWords) (hN : goodBase N.data = true) (hG : ¬ G = "")
    (hraw : containmentMatches db (cleanName (N ++ ": " ++ S)) G D = [])
    (ht : containmentMatches db N.data G D = [t]) :
    find_tournament_id_for_match db (N ++ ": " ++ S) G (some D)
      = some t.tournament_id := by
  obtain ⟨hne, hhead, hlast, hund⟩ := goodBase_spec hN
  have hclean := cleanName_stage N S hN hS
  have hrawne : ¬ (N ++ ": " ++ S) = "" := by
    intro h
    have hd := congrArg String.data h
    rw [String.data_append, String.data_append] at hd
    simp at hd
  obtain ⟨ext, hnames⟩ := searchNamesL_stage_colon N.data S.data hN hS
  have htry : tryNames db G D (searchNamesL (cleanName (N ++ ": " ++ S)))
      = some t.tournament_id := by
    rw [hclean, hnames]
    unfold tryNames
    rw [if_neg (by simp : ¬ (N.data ++ ':' :: ' ' :: S.data) = ([] : List Char))]
    rw [show containmentMatches db (N.data ++ ':' :: ' ' :: S.data) G D = [] from by
      rw [← hclean]; exact hraw]
    simp only [List.length_nil]
    rw [if_neg (by omega), if_neg (by omega)]
    unfold tryNames
    rw [if_neg hne, ht]
    rfl
  exact find_eq_of_tryNames_some db (N ++ ": " ++ S) G D t.tournament_id hrawne hG
    (by rw [hclean]; simp) htry

/-- C1 witness: raw name "Major X: Playoffs" against a stored "Major X"
row whose window [1, 10] contains the observation date 5. -/
theorem stage_stripping_resolves_parent_witness :
    find_tournament_id_for_match
      [⟨7, "Major X", "cs", 1, some 10, none, none, none, none, none, none⟩]
      ("Major X" ++ ": " ++ "Playoffs") "cs" (some 5) = some 7 :=
  stage_stripping_resolves_parent
    [⟨7, "Major X", "cs", 1, some 10, none, none, none, none, none, none⟩]
    "Major X" "Playoffs" "cs" 5
    ⟨7, "Major X", "cs", 1, some 10, none, none, none, none, none, none⟩
    (by decide) (by decide) (by decide) (by decide) (by decide)

/-! ## C2: the multiple-match tie-break returns the latest edition -/

/-- Invariant-based specification of the tie-break fold: once the row with
the strictly greatest start date has been seen, the accumulator keeps its
identifier. -/
theorem pickStep_fold_spec (t : TournamentRow) (rs : List TournamentRow)
    (hmax : ∀ r ∈ rs, r.tournament_id ≠ t.tournament_id →
      r.start_date < t.start_date) :
    ∀ (l : List TournamentRow) (acc : Option (Nat × Int)),
      (∀ x ∈ l, x ∈ rs) →
      (acc = none ∨ ∃ r ∈ rs, acc = some (r.tournament_id, r.start_date)) →
      (t ∈ l ∨ ∃ sv, acc = some (t.tournament_id, sv) ∧ t.start_date ≤ sv) →
      ∃ sv, l.foldl pickStep acc = some (t.tournament_id, sv) ∧
        t.start_date ≤ sv := by
  intro l
  induction l with
  | nil =>
    intro acc _ _ hreach
    rcases hreach with h | ⟨sv, ha, hs⟩
    · exact absurd h (List.not_mem_nil t)
    · exact ⟨sv, by rw [List.foldl_nil]; exact ha, hs⟩
  | cons r l ih =>
    intro acc hsub hinv hreach
    rw [List.foldl_cons]
    have hrmem : r ∈ rs := hsub r (List.mem_cons_self r l)
    have hsub' : ∀ x ∈ l, x ∈ rs := fun x hx => hsub x (List.mem_cons_of_mem r hx)
    rcases hinv with haccn | ⟨r0, hr0, hacc⟩
    · subst haccn
      have hstep : pickStep none r = some (r.tournament_id, r.start_date) := rfl
      rw [hstep]
      rcases hreach with hml | ⟨sv, ha, -⟩
      · rcases List.mem_cons.mp hml with htr | htl
        · subst htr
          exact ih (some (t.tournament_id, t.start_date)) hsub'
            (Or.inr ⟨t, hrmem, rfl⟩) (Or.inr ⟨t.start_date, rfl, le_refl _⟩)
        · exact ih (some (r.tournament_id, r.start_date)) hsub'
            (Or.inr ⟨r, hrmem, rfl⟩) (Or.inl htl)
      · exact absurd ha (by simp)
    · subst hacc
      have hstep : pickStep (some (r0.tournament_id, r0.start_date)) r =
          if r0.start_date < r.start_date then some (r.tournament_id, r.start_date)
          else some (r0.tournament_id, r0.start_date) := rfl
      rw [hstep]
      rcases hreach with hml | ⟨sv, ha, hsv⟩
      · rcases List.mem_cons.mp hml with htr | htl
        · subst htr
          by_cases hlt : r0.start_date < t.start_date
          · rw [if_pos hlt]
            exact ih _ hsub' (Or.inr ⟨t, hrmem, rfl⟩)
              (Or.inr ⟨t.start_date, rfl, le_refl _⟩)
          · rw [if_neg hlt]
            have hid : r0.tournament_id = t.tournament_id := by
              by_contra hne
              have := hmax r0 hr0 hne
              omega
            exact ih _ hsub' (Or.inr ⟨r0, hr0, rfl⟩)
              (Or.inr ⟨r0.start_date, by rw [hid], by omega⟩)
        · by_cases hlt : r0.start_date < r.start_date
          · rw [if_pos hlt]
            exact ih _ hsub' (Or.inr ⟨r, hrmem, rfl⟩) (Or.inl htl)
          · rw [if_neg hlt]
            exact ih _ hsub' (Or.inr ⟨r0, hr0, rfl⟩) (Or.inl htl)
      · have hidv : r0.tournament_id = t.tournament_id ∧ r0.start_date = sv := by
          have := Option.some_inj.mp ha
          exact ⟨congrArg Prod.fst this, congrArg Prod.snd this⟩
        by_cases hlt : r0.start_date < r.start_date
        · rw [if_pos hlt]
          have hid : r.tournament_id = t.tournament_id := by
            by_contra hne
            have := hmax r hrmem hne
            omega
          exact ih _ hsub' (Or.inr ⟨r, hrmem, rfl⟩)
            (Or.inr ⟨r.start_date, by rw [hid], by omega⟩)
        · rw [if_neg hlt]
          exact ih _ hsub' (Or.inr ⟨r0, hr0, rfl⟩)
            (Or.inr ⟨r0.start_date, by rw [hidv.1], by omega⟩)

theorem pickLatest_eq (rs : List TournamentRow) (t : TournamentRow)
    (hmem : t ∈ rs)
    (hmax : ∀ r ∈ rs, r.tournament_id ≠ t.tournament_id →
      r.start_date < t.start_date) :
    pickLatest rs = some t.tournament_id := by
  obtain ⟨sv, hfold, -⟩ := pickStep_fold_spec t rs hmax rs none (fun x hx => hx)
    (Or.inl rfl) (Or.inl hmem)
  unfold pickLatest
  rw [hfold]
  rfl

/-- Normalisation is the identity on a well-shaped plain name. -/
theorem cleanName_plain (N : String) (hN : goodBase N.data = true) :
    cleanName N = N.data := by
  obtain ⟨hne, hhead, hlast, hund⟩ := goodBase_spec hN
  unfold cleanName
  rw [map_underscore_id hund]
  exact stripBoth_eq_self hne hhead hlast

/-- C2: when two or more stored tournaments named `N` for game `G` all
have closed windows containing the observation date `D`, resolution
returns the identifier of the one with the (strictly) latest start date —
which, by containment, is at most `D`. -/
theorem tiebreak_latest_start
    (db : List TournamentRow) (N G : String) (D : Int) (t : TournamentRow)
    (hN : goodBase N.data = true) (hG : ¬ G = "")
    (hlen : 2 ≤ (containmentMatches db N.data G D).length)
    (hmem : t ∈ containmentMatches db N.data G D)
    (hmax : ∀ r ∈ containmentMatches db N.data G D,
      r.tournament_id ≠ t.tournament_id → r.start_date < t.start_date) :
    find_tournament_id_for_match db N G (some D) = some t.tournament_id ∧
      t.start_date ≤ D := by
  obtain ⟨hne, hhead, hlast, hund⟩ := goodBase_spec hN
  have hclean := cleanName_plain N hN
  have hrawne : ¬ N = "" := by
    intro h
    exact hne (by rw [h])
  constructor
  · obtain ⟨e, hheadL⟩ := searchNamesL_head N.data
    have htry : tryNames db G D (searchNamesL (cleanName N)) = some t.tournament_id := by
      rw [hclean, hheadL]
      unfold tryNames
      rw [if_neg hne]
      rw [if_neg (by omega : ¬ (containmentMatches db N.data G D).length = 1)]
      rw [if_pos (by omega : 1 < (containmentMatches db N.data G D).length)]
      exact pickLatest_eq (containmentMatches db N.data G D) t hmem hmax
    exact find_eq_of_tryNames_some db N G D t.tournament_id hrawne hG
      (by rw [hclean]; exact hne) htry
  · have hc := (List.mem_filter.mp hmem).2
    unfold dateContains at hc
    simp only [Bool.and_eq_true] at hc
    exact of_decide_eq_true hc.2.1

/-- C2 witness: two stored "Series Y" rows with overlapping windows both
containing the date 5; resolution picks id 8, the one starting later. -/
theorem tiebreak_latest_start_witness :
    find_tournament_id_for_match
      [⟨7, "Series Y", "cs", 1, some 10, none, none, none, none, none, none⟩,
       ⟨8, "Series Y", "cs", 3, some 12, none, none, none, none, none, none⟩]
      "Series Y" "cs" (some 5) = some 8 ∧ (3 : Int) ≤ 5 :=
  tiebreak_latest_start
    [⟨7, "Series Y", "cs", 1, some 10, none, none, none, none, none, none⟩,
     ⟨8, "Series Y", "cs", 3, some 12, none, none, none, none, none, none⟩]
    "Series Y" "cs" 5
    ⟨8, "Series Y", "cs", 3, some 12, none, none, none, none, none, none⟩
    (by decide) (by decide) (by decide) (by decide) (by decide)

/-! ## C9: resolution misses and malformed input return an absent id -/

theorem tryNames_all_empty (db : List TournamentRow) (g : String) (d : Int) :
    ∀ (ns : List (List Char)), (∀ c ∈ ns, containmentMatches db c g d = []) →
      tryNames db g d ns = none := by
  intro ns
  induction ns with
  | nil => intro _; rfl
  | cons n rest ih =>
    intro h
    unfold tryNames
    by_cases hn : n = ([] : List Char)
    · rw [if_pos hn]
      exact ih (fun c hc => h c (List.mem_cons_of_mem n hc))
    · rw [if_neg hn, h n (List.mem_cons_self n rest)]
      simp only [List.length_nil]
      rw [if_neg (by omega), if_neg (by omega)]
      exact ih (fun c hc => h c (List.mem_cons_of_mem n hc))

/-- C9: the resolver is a total function returning an absent identifier —
it cannot raise.  First part: malformed input (empty raw name, empty game
id, or a missing observation date) short-circuits to `none`.  Second part:
when no candidate name has a containment match and the name-only fallback
on the first (most specific) candidate finds no row either, the result is
`none`. -/
theorem resolver_miss_returns_absent :
    (∀ (db : List TournamentRow) (raw g : String) (dOpt : Option Int),
      raw = "" ∨ g = "" ∨ dOpt = none →
      find_tournament_id_for_match db raw g dOpt = none) ∧
    (∀ (db : List TournamentRow) (raw g : String) (d : Int),
      (∀ c ∈ searchNamesL (cleanName raw), containmentMatches db c g d = []) →
      db.filter (fun r => r.tournament_name == String.mk (cleanName raw) &&
        r.game_id == g) = [] →
      find_tournament_id_for_match db raw g (some d) = none) := by
  constructor
  · intro db raw g dOpt h
    rcases dOpt with _ | d
    · rfl
    · rcases h with h | h | h
      · unfold find_tournament_id_for_match
        simp [h]
      · unfold find_tournament_id_for_match
        simp [h]
      · exact absurd h (by simp)
  · intro db raw g d hcand hfall
    by_cases hraw : raw = ""
    · unfold find_tournament_id_for_match
      simp [hraw]
    · by_cases hg : g = ""
      · unfold find_tournament_id_for_match
        simp [hg]
      · by_cases hcl : cleanName raw = []
        · unfold find_tournament_id_for_match
          simp [hraw, hg, hcl]
        · have htry := tryNames_all_empty db g d (searchNamesL (cleanName raw)) hcand
          rw [find_eq_of_tryNames_none db raw g d hraw hg hcl htry]
          obtain ⟨e, hh⟩ := searchNamesL_head (cleanName raw)
          rw [hh]
          simp only [List.headD_cons]
          rw [hfall]
          rfl

/-- C9 witness: an unknown name against an empty store resolves to `none`,
and an input with a missing date resolves to `none`. -/
theorem resolver_miss_returns_absent_witness :
    find_tournament_id_for_match [] "Foo" "g" (some 0) = none ∧
    find_tournament_id_for_match [] "Foo" "g" none = none :=
  ⟨resolver_miss_returns_absent.2 [] "Foo" "g" 0 (by decide) (by decide),
   resolver_miss_returns_absent.1 [] "Foo" "g" none (by simp)⟩

end LP

